import Mathlib

/-!
# Verification of the `media-archive` content-addressable store

A shallow embedding of the core of the `media-archive` crate
(`src/media-archive/src/lib.rs` and `src/media-archive/src/file_hash.rs`),
together with proofs of the behavioural properties of its interface.

Rust byte strings are modelled as `List Nat` (their UTF-8 bytes), path
components as `List Char`, absolute filesystem paths as lists of components
(the components after the root, so `[]` is the filesystem root `/`), and the
filesystem itself as a partial map from paths to entries.  Stateful
operations (`store_file`, `deploy_file`) are modelled as explicit
state-passing functions returning the result together with the new
filesystem.
-/

set_option autoImplicit false

/-- Decidable equality on `Except`, so that concrete runs of the modelled
operations can be checked by `decide`. -/
instance {ε : Type _} {α : Type _} [DecidableEq ε] [DecidableEq α] :
    DecidableEq (Except ε α) := fun x y =>
  match x, y with
  | .ok a, .ok b =>
    if h : a = b then .isTrue (by rw [h]) else .isFalse (fun hc => h (Except.ok.inj hc))
  | .error a, .error b =>
    if h : a = b then .isTrue (by rw [h]) else .isFalse (fun hc => h (Except.error.inj hc))
  | .ok _, .error _ => .isFalse (fun hc => Except.noConfusion hc)
  | .error _, .ok _ => .isFalse (fun hc => Except.noConfusion hc)

namespace MediaArchive

/-! ## Byte strings and the `FileHash` type (`file_hash.rs`) -/

/-- A Rust string, viewed as its UTF-8 byte sequence (`str::bytes`). -/
abbrev ByteStr := List Nat

/-- `blake3::OUT_LEN`: the digest length in bytes. -/
def blake3_OUT_LEN : Nat := 32

/-- `HASH_HEX_LEN = blake3::OUT_LEN * 2`, the canonical hex width. -/
def HASH_HEX_LEN : Nat := blake3_OUT_LEN * 2

/-- `u8::to_ascii_lowercase`: map the bytes of `A`..`Z` to `a`..`z`. -/
def byteToAsciiLower (b : Nat) : Nat :=
  if 65 ≤ b ∧ b ≤ 90 then b + 32 else b

/-- `str::make_ascii_lowercase` on the byte sequence. -/
def makeAsciiLowercase (s : ByteStr) : ByteStr :=
  s.map byteToAsciiLower

/-- `u8::is_ascii_hexdigit`. -/
def isAsciiHexdigit (b : Nat) : Bool :=
  (48 ≤ b && b ≤ 57) || (97 ≤ b && b ≤ 102) || (65 ≤ b && b ≤ 70)

/-- The `ensure` predicate of the `prae::define!` block for `FileHash`:
length is exactly `HASH_HEX_LEN` and every byte is an ASCII hex digit. -/
def FileHash.ensure (s : ByteStr) : Bool :=
  s.length == HASH_HEX_LEN && s.all isAsciiHexdigit

/-- `FromStrError` from `file_hash.rs`: `TooLarge(usize)` when the input does
not fit in the `ArrayString`, `Other` for a `prae::ConstructionError`. -/
inductive FromStrError where
  | TooLarge (n : Nat)
  | Other
deriving DecidableEq, Repr

/-- `FileHash::from_str`: copy into an `ArrayString<HASH_HEX_LEN>` (fails with
`TooLarge` iff the byte length exceeds the capacity), then the `prae` smart
constructor runs `adjust` (`make_ascii_lowercase`) followed by `ensure`,
failing with `Other` when `ensure` rejects.  The result is the validated
lowercase byte string stored in the `FileHash`. -/
def FileHash.from_str (value : ByteStr) : Except FromStrError ByteStr :=
  if value.length > HASH_HEX_LEN then
    .error (.TooLarge value.length)
  else
    let adjusted := makeAsciiLowercase value
    if FileHash.ensure adjusted then .ok adjusted else .error .Other

/-- Rendering a `FileHash` (`Display` / `AsRef<str>`): the stored string. -/
def FileHash.render (h : ByteStr) : ByteStr := h

/-! ## Paths and the sharded store layout (`lib.rs`) -/

/-- A single path component (a file or directory name). -/
abbrev Nm := List Char

/-- An absolute filesystem path: its components below the root. -/
abbrev Path := List Nm

/-- Shorthand for building a component from a string literal. -/
def nm (s : String) : Nm := s.toList

/-- `MEDIA_ARCHIVE_DIRECTORY`. -/
def MEDIA_ARCHIVE_DIRECTORY : Nm := nm ".media-archive"

/-- `STORE_DIRECTORY`. -/
def STORE_DIRECTORY : Nm := nm "store"

/-- `SUBDIR_COUNT` from `get_path_of_stored_file`. -/
def SUBDIR_COUNT : Nat := 2

/-- `SUBDIR_NAME_LEN` from `get_path_of_stored_file`. -/
def SUBDIR_NAME_LEN : Nat := 2

/-- Fuel-driven version of `slice::chunks_exact`: the list of successive
complete chunks of length `n` (structural recursion so that the kernel can
evaluate it). -/
def chunksExactGo (n : Nat) : Nat → List Char → List (List Char)
  | 0, _ => []
  | fuel + 1, l =>
    if n ≠ 0 ∧ n ≤ l.length then l.take n :: chunksExactGo n fuel (l.drop n)
    else []

/-- `slice::chunks_exact n`. -/
def chunksExact (n : Nat) (l : List Char) : List (List Char) :=
  chunksExactGo n l.length l

/-- `MediaArchive::get_path_of_stored_file`: starting from the archive root,
push `STORE_DIRECTORY`, then the first `SUBDIR_COUNT` chunks of
`SUBDIR_NAME_LEN` characters of the hex hash, then the full hex hash. -/
def get_path_of_stored_file (archive_path : Path) (hashHex : Nm) : Path :=
  archive_path ++ [STORE_DIRECTORY] ++
    (chunksExact SUBDIR_NAME_LEN hashHex).take SUBDIR_COUNT ++ [hashHex]

/-! ## The filesystem model -/

/-- A filesystem entry, as seen by `symlink_metadata`: a regular file with its
content, a directory, or a symbolic link storing its literal target (a list of
raw segments, interpreted relative to the link's parent directory). -/
inductive Entry where
  | file (content : ByteStr)
  | dir
  | symlink (target : List Nm)
deriving DecidableEq, Repr

/-- Is the entry a regular file (`Metadata::is_file`)? -/
def Entry.isFile : Entry → Bool
  | .file _ => true
  | _ => false

/-- Is the entry a symlink (`Metadata::is_symlink`)? -/
def Entry.isSymlink : Entry → Bool
  | .symlink _ => true
  | _ => false

/-- The filesystem: a partial map from absolute paths to entries.
`fs p = none` models `io::ErrorKind::NotFound` from `symlink_metadata`. -/
abbrev FS := Path → Option Entry

/-- The empty filesystem. -/
def emptyFS : FS := fun _ => none

/-- Create or replace the entry at `p`. -/
def FS.update (fs : FS) (p : Path) (e : Entry) : FS :=
  fun q => if q = p then some e else fs q

/-- Remove the entry at `p`. -/
def FS.erase (fs : FS) (p : Path) : FS :=
  fun q => if q = p then none else fs q

/-! ## Relative paths (the `relative_path` crate) -/

/-- `relative_path::Component`. -/
inductive RComponent where
  | curDir
  | parentDir
  | normal (n : Nm)
deriving DecidableEq, Repr

/-- Classify one raw segment: empty segments are skipped, `"."` is
`CurDir`, `".."` is `ParentDir`, anything else a normal component. -/
def componentOf (s : Nm) : Option RComponent :=
  if s = [] then none
  else if s = nm "." then some .curDir
  else if s = nm ".." then some .parentDir
  else some (.normal s)

/-- `RelativePath::components`: split on `/`, skip empty segments, map `"."`
to `CurDir` and `".."` to `ParentDir`.  The input relative path is modelled
as its list of raw segments (the result of splitting the string on `/`). -/
def components (t : List Nm) : List RComponent :=
  t.filterMap componentOf

/-- `RelativePath::to_logical_path`: fold the components over the base path;
`CurDir` is skipped, `ParentDir` pops the last component (`PathBuf::pop`
fails at the root, upon which the crate returns an empty `PathBuf`, modelled
here as `none`), `Normal` pushes.  -/
def logi : Path → List RComponent → Option Path
  | base, [] => some base
  | base, .curDir :: rest => logi base rest
  | base, .parentDir :: rest =>
    if base = [] then none else logi base.dropLast rest
  | base, .normal n :: rest => logi (base ++ [n]) rest

/-- A component that is non-empty and not `"."` or `".."`. -/
def cleanNm (s : Nm) : Bool :=
  !(s = [] || s = nm "." || s = nm "..")

/-- A path all of whose components are clean. -/
def cleanPath (p : Path) : Bool := p.all cleanNm

/-- Length of the longest common prefix of two paths. -/
def commonLen : Path → Path → Nat
  | a :: as, b :: bs => if a = b then commonLen as bs + 1 else 0
  | _, _ => 0

/-- `PathExt::relative_to` from the `relative_path` crate, for absolute
paths free of `.`/`..`/empty components (the crate fails with
`RelativeToError` on paths it cannot relate; for our component-list paths
that is the unclean case): strip the common prefix, emit one `".."` segment
per remaining base component, then the remaining target components. -/
def relative_to (p base : Path) : Option (List Nm) :=
  if cleanPath p ∧ cleanPath base then
    some (List.replicate (base.length - commonLen base p) (nm "..") ++
      p.drop (commonLen base p))
  else none

/-! ## Symlink resolution -/

/-- The kernel's bound on symlink chains (`ELOOP` after 40 on Linux). -/
def SYMLINK_FUEL : Nat := 40

/-- Follow symlinks at `p` (the behaviour of `Path::metadata`, which
resolves links, as opposed to `symlink_metadata`).  A link's stored target
is resolved logically against the link's parent directory.  `none` models
both `NotFound` (dangling link or missing entry) and `ELOOP`. -/
def resolveEntry (fs : FS) : Nat → Path → Option Entry
  | 0, _ => none
  | fuel + 1, p =>
    match fs p with
    | some (.symlink segs) =>
      match logi p.dropLast (components segs) with
      | some q => resolveEntry fs fuel q
      | none => none
    | e => e

/-- `Path::exists`: follows symlinks, and swallows errors as `false`. -/
def pathExists (fs : FS) (p : Path) : Bool :=
  (resolveEntry fs SYMLINK_FUEL p).isSome

/-! ## `fs::create_dir_all` -/

/-- The non-empty prefixes of a path, shortest first (the directories
`create_dir_all` visits). -/
def nePrefixes (p : Path) : List Path :=
  (List.range p.length).map fun i => p.take (i + 1)

/-- Create each directory in the given list in order: a missing entry is
created as a directory, an existing directory is kept (idempotence), an
existing non-directory aborts with an error.  Returns the (possibly
partially modified) filesystem and a success flag. -/
def createDirs (fs : FS) : List Path → FS × Bool
  | [] => (fs, true)
  | q :: rest =>
    match fs q with
    | none => createDirs (fs.update q .dir) rest
    | some .dir => createDirs fs rest
    | some _ => (fs, false)

/-- `fs::create_dir_all parent`. -/
def create_dir_all (fs : FS) (parent : Path) : FS × Bool :=
  createDirs fs (nePrefixes parent)

/-! ## The `MediaArchive` struct and its operations -/

/-- `struct MediaArchive { archive_path, deploy_path }`. -/
structure Archive where
  archive_path : Path
  deploy_path : Option Path

/-- `enum StoreMethod`. -/
inductive StoreMethod where
  | Copy
  | Move
deriving DecidableEq, Repr

/-- `enum DeployMethod`. -/
inductive DeployMethod where
  | Copy
  | Symlink
  | Hardlink
deriving DecidableEq, Repr

/-- `enum StoreFileError` (payloads irrelevant to the claims are dropped;
the `io::Error` sources are not reproduced). -/
inductive StoreFileError where
  | AlreadyExists (hash : Nm)
  | IsDirectory
  | IsSymlink
  | Metadata
  | CreateParentDir
  | Open
  | Read
  | Store
deriving DecidableEq, Repr

/-- The `io::ErrorKind` of an error wrapped in `DeployError::Metadata`. -/
inductive IOErrorKind where
  | notFound
  | other
deriving DecidableEq, Repr

/-- `enum DeployError`. -/
inductive DeployError where
  | AlreadyExists (p : Path)
  | CreateParentDir
  | Deploy (source target : Path)
  | InvalidPath (t : List Nm)
  | IsBareArchive
  | Metadata (p : Path) (kind : IOErrorKind)
  | NotFound (hash : Nm)
  | NotSupported
  | SourceExistsButIsNotAFile (p : Path)
  | SymlinkRelativePathConstruction (source_path target_parent : Path)
deriving DecidableEq, Repr

/-- `MediaArchive::store_file`.  `hashFn` stands for the BLAKE3 pipeline
(`Hasher::update_reader` + `finalize().to_hex()`): a pure function from file
content to the 64-character lowercase hex digest.

Follows the source step by step: `symlink_metadata` (error → `Metadata`);
directory → `IsDirectory`; symlink and `Move` → `IsSymlink`; symlink whose
`metadata()` resolution is a directory → `IsDirectory` (resolution failure →
`Metadata`); open + hash the (resolved) content; target via
`get_path_of_stored_file`; `target_path.exists()` → `AlreadyExists(hash)`;
`create_dir_all(parent)`; then `reflink_or_copy` or `rename`.  The
post-store read-only chmod is warn-only in the source and does not affect
the result, so it is not modelled. -/
def store_file (hashFn : ByteStr → Nm) (a : Archive) (fs : FS)
    (p : Path) (method : StoreMethod) :
    Except StoreFileError Nm × FS :=
  match fs p with
  | none => (.error .Metadata, fs)
  | some entry =>
    if entry = .dir then (.error .IsDirectory, fs)
    else if entry.isSymlink ∧ method = .Move then (.error .IsSymlink, fs)
    else if entry.isSymlink ∧ resolveEntry fs SYMLINK_FUEL p = none then
      (.error .Metadata, fs)
    else if entry.isSymlink ∧ resolveEntry fs SYMLINK_FUEL p = some .dir then
      (.error .IsDirectory, fs)
    else
      match resolveEntry fs SYMLINK_FUEL p with
      | some (.file c) =>
        let hash := hashFn c
        let target := get_path_of_stored_file a.archive_path hash
        if pathExists fs target then (.error (.AlreadyExists hash), fs)
        else
          let cda := create_dir_all fs target.dropLast
          if cda.2 then
            match method with
            | .Copy => (.ok hash, cda.1.update target (.file c))
            | .Move => (.ok hash, (cda.1.erase p).update target entry)
          else (.error .CreateParentDir, cda.1)
      | _ => (.error .Open, fs)

/-- `MediaArchive::deploy_file`.  `symlinkSupported` models whether the
platform's symlink syscall succeeds or fails with
`io::ErrorKind::Unsupported` (which the source maps to `NotSupported`).

Follows the source step by step: bare archive → `IsBareArchive`;
`to_logical_path` + the `starts_with`/equality check → `InvalidPath`;
existing target (`symlink_metadata` succeeding) → `AlreadyExists`; source
lookup: missing → the `Err(err)` arm wraps the `NotFound`-kind error as
`Metadata` (the `NotFound` variant of `DeployError` is never built by the
source), non-file → `SourceExistsButIsNotAFile`; `create_dir_all(parent)`;
then materialization per method, `Symlink` first computing `relative_to`
(failure → `SymlinkRelativePathConstruction`). -/
def deploy_file (symlinkSupported : Bool) (a : Archive) (fs : FS)
    (hash : Nm) (target : List Nm) (method : DeployMethod) :
    Except DeployError Unit × FS :=
  match a.deploy_path with
  | none => (.error .IsBareArchive, fs)
  | some deploy_path =>
    match logi deploy_path (components target) with
    | none => (.error (.InvalidPath target), fs)
    | some full =>
      if ¬ deploy_path <+: full ∨ full = deploy_path then
        (.error (.InvalidPath target), fs)
      else
        match fs full with
        | some _ => (.error (.AlreadyExists full), fs)
        | none =>
          let source_path := get_path_of_stored_file a.archive_path hash
          match fs source_path with
          | none => (.error (.Metadata source_path .notFound), fs)
          | some e =>
            if e.isFile then
              let parent := full.dropLast
              let cda := create_dir_all fs parent
              if cda.2 then
                match method with
                | .Copy => (.ok (), cda.1.update full e)
                | .Hardlink => (.ok (), cda.1.update full e)
                | .Symlink =>
                  match relative_to source_path parent with
                  | none =>
                    (.error (.SymlinkRelativePathConstruction source_path parent), cda.1)
                  | some r =>
                    if symlinkSupported then (.ok (), cda.1.update full (.symlink r))
                    else (.error .NotSupported, cda.1)
              else (.error .CreateParentDir, cda.1)
            else (.error (.SourceExistsButIsNotAFile source_path), fs)

/-! ## Concrete fixtures used by witnesses and counterexamples -/

/-- A 64-character lowercase hex digest (all `a`). -/
def hashA : Nm := List.replicate 64 'a'

/-- A non-bare archive rooted at `/d` (deploy root `/d`, archive at
`/d/.media-archive`), as produced by `MediaArchive::open` in `Deployable`
mode. -/
def archD : Archive := ⟨[nm "d", MEDIA_ARCHIVE_DIRECTORY], some [nm "d"]⟩

/-- The sharded path of `hashA` in `archD`. -/
def spA : Path := get_path_of_stored_file archD.archive_path hashA

/-- A filesystem holding only the stored object for `hashA`. -/
def fsA : FS := emptyFS.update spA (.file [7])

/-- A second non-bare archive whose root path contains a `".."` component;
used to reach the `relative_to` failure branch of the symlink deployment. -/
def archU : Archive := ⟨[nm "..", MEDIA_ARCHIVE_DIRECTORY], some [nm ".."]⟩

/-- The sharded path of `hashA` in `archU`. -/
def spU : Path := get_path_of_stored_file archU.archive_path hashA

/-- A filesystem holding only the stored object for `hashA` under `archU`. -/
def fsU : FS := emptyFS.update spU (.file [7])

/-- A source file `/s/f.txt` outside the archive. -/
def srcP : Path := [nm "s", nm "f.txt"]

/-- A filesystem holding only the source file `/s/f.txt`. -/
def fsS : FS := emptyFS.update srcP (.file [7])

/-- A concrete stand-in for the BLAKE3 digest function in witnesses. -/
def hfA : ByteStr → Nm := fun _ => hashA

/-- A bare archive rooted at `/b` (no deploy root). -/
def archB : Archive := ⟨[nm "b"], none⟩

/-- The relative symlink target from `/d/x` to the stored object `spA`. -/
def rA : List Nm := (relative_to spA [nm "d", nm "x"]).getD []

/-- The invalid-target condition of claim C1, on the deploy root and the raw
segments of the relative target path: empty, only current-directory
segments, logical resolution equal to the deploy root, or logical resolution
escaping the deploy root (either popping above the filesystem root or
landing outside the deploy root). -/
def invalidTargetB (dp : Path) (t : List Nm) : Bool :=
  (components t).isEmpty ||
  (components t).all (· = .curDir) ||
  (logi dp (components t) == some dp) ||
  (match logi dp (components t) with
   | none => true
   | some full => !(decide (dp <+: full)))

/-- The deploy failures that occur before parent-directory creation. -/
def earlyDeployError : DeployError → Bool
  | .IsBareArchive => true
  | .InvalidPath _ => true
  | .AlreadyExists _ => true
  | .Metadata _ _ => true
  | .NotFound _ => true
  | .SourceExistsButIsNotAFile _ => true
  | _ => false

/-- Did the deploy result fail with an early (pre-creation) error? -/
def earlyDeployFailure (r : Except DeployError Unit) : Bool :=
  match r with
  | .error e => earlyDeployError e
  | .ok _ => false

/-- Is an `Except` result a success? -/
def isOkE {ε α : Type _} (r : Except ε α) : Bool :=
  match r with
  | .ok _ => true
  | .error _ => false

/-! ## Helper lemmas -/

theorem byteToAsciiLower_idem (b : Nat) :
    byteToAsciiLower (byteToAsciiLower b) = byteToAsciiLower b := by
  by_cases h : 65 ≤ b ∧ b ≤ 90
  · simp only [byteToAsciiLower, if_pos h]
    rw [if_neg (by omega)]
  · simp only [byteToAsciiLower, if_neg h]

theorem isAsciiHexdigit_byteToAsciiLower (b : Nat) :
    isAsciiHexdigit (byteToAsciiLower b) = isAsciiHexdigit b := by
  rw [Bool.eq_iff_iff]
  simp only [isAsciiHexdigit, byteToAsciiLower, Bool.or_eq_true, Bool.and_eq_true,
    decide_eq_true_eq]
  split <;> omega

theorem makeAsciiLowercase_idem (s : ByteStr) :
    makeAsciiLowercase (makeAsciiLowercase s) = makeAsciiLowercase s := by
  simp [makeAsciiLowercase, Function.comp, byteToAsciiLower_idem]

theorem length_makeAsciiLowercase (s : ByteStr) :
    (makeAsciiLowercase s).length = s.length := by
  simp [makeAsciiLowercase]

theorem all_hex_makeAsciiLowercase (s : ByteStr) :
    (makeAsciiLowercase s).all isAsciiHexdigit = s.all isAsciiHexdigit := by
  induction s with
  | nil => rfl
  | cons b bs ih =>
    simp [makeAsciiLowercase, isAsciiHexdigit_byteToAsciiLower] at ih ⊢
    rw [ih]

theorem chunksExactGo_succ {n f : Nat} {l : List Char}
    (h : n ≠ 0 ∧ n ≤ l.length) :
    chunksExactGo n (f + 1) l = l.take n :: chunksExactGo n f (l.drop n) := by
  simp [chunksExactGo, h]

theorem chunksExact_take_two {h : Nm} (hl : h.length = 64) :
    (chunksExact 2 h).take 2 = [h.take 2, (h.drop 2).take 2] := by
  have h64 : (64 : Nat) = 63 + 1 := rfl
  have h63 : (63 : Nat) = 62 + 1 := rfl
  have hd : (h.drop 2).length = 62 := by simp [hl]
  rw [chunksExact, hl, h64, chunksExactGo_succ (by omega), h63,
    chunksExactGo_succ (by omega)]
  rfl

/-! ## C9 — ContentHash parse/render round-trip -/

/-- C9: for every 64-byte hex string, parsing yields its lowercase form,
rendering returns exactly that form, an uppercase input parses to the same
value as its lowercase counterpart, and parsing an already-rendered hash is
the identity. -/
theorem fileHash_parse_render_roundtrip (s : ByteStr)
    (hlen : s.length = HASH_HEX_LEN) (hhex : s.all isAsciiHexdigit = true) :
    FileHash.from_str s = .ok (makeAsciiLowercase s) ∧
    FileHash.render (makeAsciiLowercase s) = makeAsciiLowercase s ∧
    FileHash.from_str s = FileHash.from_str (makeAsciiLowercase s) ∧
    FileHash.from_str (makeAsciiLowercase s) = .ok (makeAsciiLowercase s) := by
  have he : FileHash.ensure (makeAsciiLowercase s) = true := by
    unfold FileHash.ensure
    rw [length_makeAsciiLowercase, all_hex_makeAsciiLowercase, hlen, hhex]
    simp
  have hmain : FileHash.from_str s = .ok (makeAsciiLowercase s) := by
    unfold FileHash.from_str
    rw [if_neg (by omega)]
    simp [he]
  have hlow : FileHash.from_str (makeAsciiLowercase s) = .ok (makeAsciiLowercase s) := by
    unfold FileHash.from_str
    rw [if_neg (by rw [length_makeAsciiLowercase]; omega)]
    simp [makeAsciiLowercase_idem, he]
  exact ⟨hmain, rfl, by rw [hmain, hlow], hlow⟩

/-- Witness for C9: the all-`A` 64-byte string parses to the all-`a`
string, twice over. -/
theorem fileHash_parse_render_roundtrip_witness :
    (List.replicate 64 65 : ByteStr).length = HASH_HEX_LEN ∧
    (List.replicate 64 65 : ByteStr).all isAsciiHexdigit = true ∧
    FileHash.from_str (List.replicate 64 65) =
      .ok (makeAsciiLowercase (List.replicate 64 65)) :=
  ⟨by decide, by decide,
    (fileHash_parse_render_roundtrip (List.replicate 64 65) (by decide) (by decide)).1⟩

/-! ## C3 — ContentHash parse failure modes -/

/-- C3 counterexample: the six-byte string `"001122"` has incorrect length,
yet parsing fails with the `Other` construction error — the same error
non-hex input gets — not with the length-specific `TooLarge` error. -/
theorem fileHash_short_input_not_length_specific :
    FileHash.from_str [48, 48, 49, 49, 50, 50] = .error .Other ∧
    FileHash.from_str [48, 48, 49, 49, 50, 50] ≠ .error (.TooLarge 6) := by
  constructor
  · decide
  · decide

/-- C3 as amended: inputs longer than the canonical 64 bytes fail with the
length-specific `TooLarge` error carrying the input length; every other
invalid input — too short, or of canonical length but containing a non-hex
byte (including bytes of multi-byte characters) — fails with the `Other`
construction error.  Parsing is a total function, so it never panics. -/
theorem fileHash_from_str_error_modes (s : ByteStr) :
    (HASH_HEX_LEN < s.length →
      FileHash.from_str s = .error (.TooLarge s.length)) ∧
    (s.length ≤ HASH_HEX_LEN →
      (s.length ≠ HASH_HEX_LEN ∨ s.all isAsciiHexdigit = false) →
      FileHash.from_str s = .error .Other) := by
  constructor
  · intro hgt
    unfold FileHash.from_str
    rw [if_pos (by omega)]
  · intro hle hbad
    have he : FileHash.ensure (makeAsciiLowercase s) = false := by
      unfold FileHash.ensure
      rw [length_makeAsciiLowercase, all_hex_makeAsciiLowercase]
      rcases hbad with hbad | hbad
      · simp [hbad]
      · simp [hbad]
    unfold FileHash.from_str
    rw [if_neg (by omega)]
    simp [he]

/-- Witness for C3 (amended): a 65-byte input fails `TooLarge 65`; the
short input `"001122"` fails `Other`. -/
theorem fileHash_from_str_error_modes_witness :
    (HASH_HEX_LEN < (List.replicate 65 48 : ByteStr).length ∧
      FileHash.from_str (List.replicate 65 48) = .error (.TooLarge 65)) ∧
    (([48, 48, 49, 49, 50, 50] : ByteStr).length ≤ HASH_HEX_LEN ∧
      FileHash.from_str [48, 48, 49, 49, 50, 50] = .error .Other) :=
  ⟨⟨by decide, by
      have := (fileHash_from_str_error_modes (List.replicate 65 48)).1 (by decide)
      simpa using this⟩,
    ⟨by decide,
      (fileHash_from_str_error_modes [48, 48, 49, 49, 50, 50]).2 (by decide)
        (by decide)⟩⟩

/-! ## C7 — sharded store layout -/

/-- C7: for a 64-character hash, the stored path is
`<archive>/store/<first 2 chars>/<next 2 chars>/<full hash>` (the filename
repeats the consumed prefix); the mapping is a deterministic function of the
hash and collision-free (injective); and the shard-width constraint
`SUBDIR_COUNT * SUBDIR_NAME_LEN ≤ OUT_LEN * 2` — the source's static
assertion — holds. -/
theorem shard_path_layout :
    (∀ (ap : Path) (h : Nm), h.length = HASH_HEX_LEN →
      get_path_of_stored_file ap h =
        ap ++ [STORE_DIRECTORY, h.take SUBDIR_NAME_LEN,
          (h.drop SUBDIR_NAME_LEN).take SUBDIR_NAME_LEN, h]) ∧
    (∀ (ap : Path) (h₁ h₂ : Nm),
      get_path_of_stored_file ap h₁ = get_path_of_stored_file ap h₂ →
      h₁ = h₂) ∧
    SUBDIR_COUNT * SUBDIR_NAME_LEN ≤ blake3_OUT_LEN * 2 := by
  refine ⟨?_, ?_, by decide⟩
  · intro ap h hl
    have : h.length = 64 := hl
    unfold get_path_of_stored_file
    rw [show SUBDIR_NAME_LEN = 2 from rfl, show SUBDIR_COUNT = 2 from rfl,
      chunksExact_take_two this]
    simp
  · intro ap h₁ h₂ heq
    have h1 := congrArg List.getLast? heq
    unfold get_path_of_stored_file at h1
    rw [List.getLast?_concat, List.getLast?_concat] at h1
    exact Option.some.inj h1

/-- Witness for C7: the layout at a concrete 64-character hash. -/
theorem shard_path_layout_witness :
    hashA.length = HASH_HEX_LEN ∧
    get_path_of_stored_file [nm "r"] hashA =
      [nm "r", STORE_DIRECTORY, hashA.take SUBDIR_NAME_LEN,
        (hashA.drop SUBDIR_NAME_LEN).take SUBDIR_NAME_LEN, hashA] :=
  ⟨by decide, shard_path_layout.1 [nm "r"] hashA (by decide)⟩

theorem logi_all_curDir {cs : List RComponent} {b : Path}
    (h : ∀ c ∈ cs, c = .curDir) : logi b cs = some b := by
  induction cs with
  | nil => rfl
  | cons c rest ih =>
    have hc := h c (by simp)
    subst hc
    exact ih fun c hc => h c (by simp [hc])

/-! ## C1 — lexical confinement of deploy targets -/

/-- C1 as amended: for every relative deploy path that is empty, consists
only of current-directory segments, resolves logically to the deploy root
itself, or whose logical resolution escapes the deploy root (such as
`"test/../../important-file"`; note that `"a/b/../../escape"` resolves to
`<root>/escape`, inside the root, and is therefore accepted), `deploy_file`
on a non-bare archive fails with `InvalidPath`.  The decision is purely
lexical — it holds for every filesystem, in particular when the target does
not exist — and the filesystem is returned unchanged. -/
theorem deploy_file_invalid_path (supp : Bool) (a : Archive) (dp : Path)
    (fs : FS) (h : Nm) (t : List Nm) (m : DeployMethod)
    (hdp : a.deploy_path = some dp) (hcond : invalidTargetB dp t = true) :
    deploy_file supp a fs h t m = (.error (.InvalidPath t), fs) := by
  have hcases : logi dp (components t) = none ∨
      ∃ full, logi dp (components t) = some full ∧ (¬ dp <+: full ∨ full = dp) := by
    simp only [invalidTargetB, Bool.or_eq_true, List.isEmpty_iff, List.all_eq_true,
      beq_iff_eq, decide_eq_true_eq] at hcond
    rcases hcond with ((hc | hc) | hc) | hc
    · exact Or.inr ⟨dp, by rw [hc]; rfl, Or.inr rfl⟩
    · exact Or.inr ⟨dp, logi_all_curDir hc, Or.inr rfl⟩
    · exact Or.inr ⟨dp, hc, Or.inr rfl⟩
    · rcases hO : logi dp (components t) with _ | full
      · exact Or.inl rfl
      · rw [hO] at hc
        exact Or.inr ⟨full, rfl, Or.inl (by simpa using hc)⟩
  rcases hcases with hL | ⟨full, hL, hc⟩
  · simp only [deploy_file, hdp, hL]
  · simp only [deploy_file, hdp, hL]
    rw [if_pos hc]

/-- Witness for C1 (amended): `"test/../../important-file"` escapes the
deploy root `/d` and is rejected without touching the filesystem. -/
theorem deploy_file_invalid_path_witness :
    archD.deploy_path = some [nm "d"] ∧
    invalidTargetB [nm "d"] [nm "test", nm "..", nm "..", nm "important-file"] = true ∧
    deploy_file true archD emptyFS hashA
      [nm "test", nm "..", nm "..", nm "important-file"] .Copy =
      (.error (.InvalidPath [nm "test", nm "..", nm "..", nm "important-file"]), emptyFS) :=
  ⟨rfl, by decide,
    deploy_file_invalid_path true archD [nm "d"] emptyFS hashA
      [nm "test", nm "..", nm "..", nm "important-file"] .Copy rfl (by decide)⟩

/-- C1 counterexample: the claim's example `"a/b/../../escape"` does not
escape — it resolves logically to `/d/escape`, strictly inside the deploy
root — so `deploy_file` does not fail with `InvalidPath` on it (with an
empty store it proceeds to the source lookup and fails there instead). -/
theorem deploy_file_escape_example_not_rejected :
    logi [nm "d"] (components [nm "a", nm "b", nm "..", nm "..", nm "escape"]) =
      some [nm "d", nm "escape"] ∧
    (deploy_file true archD emptyFS hashA
      [nm "a", nm "b", nm "..", nm "..", nm "escape"] .Copy).1 =
      .error (.Metadata spA .notFound) ∧
    (deploy_file true archD emptyFS hashA
      [nm "a", nm "b", nm "..", nm "..", nm "escape"] .Copy).1 ≠
      .error (.InvalidPath [nm "a", nm "b", nm "..", nm "..", nm "escape"]) := by
  refine ⟨by decide, by decide, by decide⟩

/-! ## C2 — missing stored object is reported as Metadata, not NotFound -/

/-- C2 (the code bug, evaluated): deploying a hash whose object is not in
the store fails with `DeployError::Metadata` wrapping the `NotFound`-kind
I/O error of the source lookup; the dedicated `DeployError::NotFound`
variant the spec requires is never produced (the source never constructs
it).  Shown on a concrete non-bare archive with an empty store. -/
theorem deploy_file_missing_source_is_metadata :
    (deploy_file true archD emptyFS hashA [nm "x", nm "y"] .Copy).1 =
      .error (.Metadata spA .notFound) ∧
    (deploy_file true archD emptyFS hashA [nm "x", nm "y"] .Copy).2 = emptyFS ∧
    (.error (.Metadata spA .notFound) : Except DeployError Unit) ≠
      .error (.NotFound hashA) := by
  refine ⟨by decide, rfl, by decide⟩

theorem resolveEntry_nonsymlink {fs : FS} {p : Path} {e : Entry}
    (hp : fs p = some e) (he : e.isSymlink = false) {n : Nat} (hn : 0 < n) :
    resolveEntry fs n p = some e := by
  cases n with
  | zero => omega
  | succ m => cases e <;> simp_all [resolveEntry, Entry.isSymlink]

theorem createDirs_preserve {e : Entry} :
    ∀ (l : List Path) (fs : FS) (q : Path), fs q = some e →
      (createDirs fs l).1 q = some e := by
  intro l
  induction l with
  | nil => intro fs q hq; exact hq
  | cons r rest ih =>
    intro fs q hq
    cases hr : fs r with
    | none =>
      have hne : q ≠ r := fun h => by rw [h, hr] at hq; exact Option.noConfusion hq
      simp only [createDirs, hr]
      exact ih _ q (by simp [FS.update, hne, hq])
    | some er =>
      cases er <;> simp only [createDirs, hr]
      · exact hq
      · exact ih _ q hq
      · exact hq

theorem create_dir_all_preserve {fs : FS} {parent q : Path} {e : Entry}
    (hq : fs q = some e) : (create_dir_all fs parent).1 q = some e :=
  createDirs_preserve _ fs q hq

/-! ## C5 — store_file source validation order -/

/-- C5: the source-kind checks of `store_file` run in a fixed order with
distinct failure modes: a directory (by no-follow metadata) fails
`IsDirectory` for both methods; a symlink fails `IsSymlink` for `Move`
before the through-link check (so even a symlink to a directory fails
`IsSymlink` under `Move`); a symlink resolving to a directory fails
`IsDirectory` under `Copy`; and a symlink resolving to a regular file
passes validation for `Copy` (the result is never one of the validation
errors). -/
theorem store_file_validation :
    (∀ (hashFn : ByteStr → Nm) (a : Archive) (fs : FS) (p : Path) (m : StoreMethod),
      fs p = some .dir → store_file hashFn a fs p m = (.error .IsDirectory, fs)) ∧
    (∀ (hashFn : ByteStr → Nm) (a : Archive) (fs : FS) (p : Path) (tg : List Nm),
      fs p = some (.symlink tg) →
      store_file hashFn a fs p .Move = (.error .IsSymlink, fs)) ∧
    (∀ (hashFn : ByteStr → Nm) (a : Archive) (fs : FS) (p : Path) (tg : List Nm),
      fs p = some (.symlink tg) → resolveEntry fs SYMLINK_FUEL p = some .dir →
      store_file hashFn a fs p .Copy = (.error .IsDirectory, fs)) ∧
    (∀ (hashFn : ByteStr → Nm) (a : Archive) (fs : FS) (p : Path) (tg : List Nm)
      (c : ByteStr),
      fs p = some (.symlink tg) → resolveEntry fs SYMLINK_FUEL p = some (.file c) →
      (store_file hashFn a fs p .Copy).1 ≠ .error .IsDirectory ∧
      (store_file hashFn a fs p .Copy).1 ≠ .error .IsSymlink ∧
      (store_file hashFn a fs p .Copy).1 ≠ .error .Metadata) := by
  refine ⟨?_, ?_, ?_, ?_⟩
  · intro hashFn a fs p m hp
    simp [store_file, hp]
  · intro hashFn a fs p tg hp
    simp [store_file, hp, Entry.isSymlink]
  · intro hashFn a fs p tg hp hre
    simp [store_file, hp, Entry.isSymlink, hre]
  · intro hashFn a fs p tg c hp hre
    refine ⟨?_, ?_, ?_⟩ <;>
      · simp only [store_file, hp, Entry.isSymlink, hre]
        split_ifs <;> simp_all

/-- Witness for C5: concrete runs for all four validation scenarios
(directory; symlink under `Move`; symlink to directory under `Copy`;
symlink to regular file under `Copy`). -/
theorem store_file_validation_witness :
    store_file hfA archD (emptyFS.update srcP .dir) srcP .Copy =
      (.error .IsDirectory, emptyFS.update srcP .dir) ∧
    store_file hfA archD (emptyFS.update srcP (.symlink [nm "g"])) srcP .Move =
      (.error .IsSymlink, emptyFS.update srcP (.symlink [nm "g"])) ∧
    store_file hfA archD
        ((emptyFS.update srcP (.symlink [nm "g"])).update [nm "s", nm "g"] .dir)
        srcP .Copy =
      (.error .IsDirectory,
        (emptyFS.update srcP (.symlink [nm "g"])).update [nm "s", nm "g"] .dir) ∧
    (store_file hfA archD
        ((emptyFS.update srcP (.symlink [nm "g"])).update [nm "s", nm "g"] (.file [7]))
        srcP .Copy).1 ≠ .error .IsSymlink :=
  ⟨store_file_validation.1 hfA archD (emptyFS.update srcP .dir) srcP .Copy rfl,
    store_file_validation.2.1 hfA archD (emptyFS.update srcP (.symlink [nm "g"]))
      srcP [nm "g"] rfl,
    store_file_validation.2.2.1 hfA archD
      ((emptyFS.update srcP (.symlink [nm "g"])).update [nm "s", nm "g"] .dir)
      srcP [nm "g"] rfl (by decide),
    (store_file_validation.2.2.2 hfA archD
      ((emptyFS.update srcP (.symlink [nm "g"])).update [nm "s", nm "g"] (.file [7]))
      srcP [nm "g"] [7] rfl (by decide)).2.1⟩

/-! ## C6 — store_file frame behaviour on the source -/

theorem store_file_frame_master (hashFn : ByteStr → Nm) (a : Archive) (fs : FS)
    (p : Path) (m : StoreMethod) :
    ((store_file hashFn a fs p m).2 p = fs p ∧
      isOkE (store_file hashFn a fs p m).1 = false) ∨
    (isOkE (store_file hashFn a fs p m).1 = true ∧ m = .Copy ∧
      (store_file hashFn a fs p m).2 p = fs p) ∨
    (isOkE (store_file hashFn a fs p m).1 = true ∧ m = .Move ∧
      (store_file hashFn a fs p m).2 p = none) := by
  cases hp : fs p with
  | none => exact Or.inl (by simp [store_file, hp, isOkE])
  | some entry =>
    cases entry with
    | dir => exact Or.inl (by simp [store_file, hp, isOkE])
    | symlink tg =>
      cases m with
      | Move => exact Or.inl (by simp [store_file, hp, Entry.isSymlink, isOkE])
      | Copy =>
        cases hre : resolveEntry fs SYMLINK_FUEL p with
        | none =>
          exact Or.inl (by simp [store_file, hp, Entry.isSymlink, hre, isOkE])
        | some re =>
          cases re with
          | dir =>
            exact Or.inl (by simp [store_file, hp, Entry.isSymlink, hre, isOkE])
          | symlink tg₂ =>
            exact Or.inl (by simp [store_file, hp, Entry.isSymlink, hre, isOkE])
          | file c =>
            cases hex : pathExists fs (get_path_of_stored_file a.archive_path (hashFn c)) with
            | true =>
              exact Or.inl (by simp [store_file, hp, Entry.isSymlink, hre, hex, isOkE])
            | false =>
              have hne : p ≠ get_path_of_stored_file a.archive_path (hashFn c) := by
                intro heq
                rw [pathExists, ← heq, hre] at hex
                simp at hex
              cases hcda :
                  (create_dir_all fs
                    (get_path_of_stored_file a.archive_path (hashFn c)).dropLast).2 with
              | false =>
                refine Or.inl ⟨?_, ?_⟩
                · simp only [store_file, hp, Entry.isSymlink, hre, hex, hcda]
                  simp [create_dir_all, createDirs_preserve _ fs p hp]
                · simp [store_file, hp, Entry.isSymlink, hre, hex, hcda, isOkE]
              | true =>
                refine Or.inr (Or.inl ⟨?_, rfl, ?_⟩)
                · simp [store_file, hp, Entry.isSymlink, hre, hex, hcda, isOkE]
                · simp only [store_file, hp, Entry.isSymlink, hre, hex, hcda]
                  simp [FS.update, hne, create_dir_all, createDirs_preserve _ fs p hp]
    | file c =>
      have hre : resolveEntry fs SYMLINK_FUEL p = some (.file c) :=
        resolveEntry_nonsymlink hp rfl (by decide)
      cases hex : pathExists fs (get_path_of_stored_file a.archive_path (hashFn c)) with
      | true => exact Or.inl (by simp [store_file, hp, Entry.isSymlink, hre, hex, isOkE])
      | false =>
        have hne : p ≠ get_path_of_stored_file a.archive_path (hashFn c) := by
          intro heq
          rw [pathExists, ← heq, hre] at hex
          simp at hex
        cases hcda :
            (create_dir_all fs
              (get_path_of_stored_file a.archive_path (hashFn c)).dropLast).2 with
        | false =>
          refine Or.inl ⟨?_, ?_⟩
          · simp only [store_file, hp, Entry.isSymlink, hre, hex, hcda]
            simp [create_dir_all, createDirs_preserve _ fs p hp]
          · simp [store_file, hp, Entry.isSymlink, hre, hex, hcda, isOkE]
        | true =>
          cases m with
          | Copy =>
            refine Or.inr (Or.inl ⟨?_, rfl, ?_⟩)
            · simp [store_file, hp, Entry.isSymlink, hre, hex, hcda, isOkE]
            · simp only [store_file, hp, Entry.isSymlink, hre, hex, hcda]
              simp [FS.update, hne, create_dir_all, createDirs_preserve _ fs p hp]
          | Move =>
            refine Or.inr (Or.inr ⟨?_, rfl, ?_⟩)
            · simp [store_file, hp, Entry.isSymlink, hre, hex, hcda, isOkE]
            · simp only [store_file, hp, Entry.isSymlink, hre, hex, hcda]
              simp [FS.update, FS.erase, hne]

/-- C6: `store_file` with `Move` removes the source exactly when the call
succeeds — on success the source entry is gone, on every failure it is left
untouched (in the model every failure occurs before the rename) — and
`store_file` with `Copy` leaves the source entry untouched in all cases. -/
theorem store_file_move_copy_frame (hashFn : ByteStr → Nm) (a : Archive)
    (fs : FS) (p : Path) (m : StoreMethod) :
    (m = .Copy → (store_file hashFn a fs p m).2 p = fs p) ∧
    (m = .Move → isOkE (store_file hashFn a fs p m).1 = true →
      (store_file hashFn a fs p m).2 p = none) ∧
    (m = .Move → isOkE (store_file hashFn a fs p m).1 = false →
      (store_file hashFn a fs p m).2 p = fs p) := by
  rcases store_file_frame_master hashFn a fs p m with
    ⟨h1, h2⟩ | ⟨h1, h2, h3⟩ | ⟨h1, h2, h3⟩
  · refine ⟨fun _ => h1, fun _ hok => ?_, fun _ _ => h1⟩
    rw [h2] at hok
    exact absurd hok (by simp)
  · refine ⟨fun _ => h3, fun hm => ?_, fun _ hok => ?_⟩
    · rw [h2] at hm
      exact absurd hm (by simp)
    · rw [h1] at hok
      exact absurd hok (by simp)
  · refine ⟨fun hm => ?_, fun _ _ => h3, fun _ hok => ?_⟩
    · rw [h2] at hm
      exact absurd hm (by simp)
    · rw [h1] at hok
      exact absurd hok (by simp)

/-- Witness for C6: a concrete successful `Move` removes the source; the
same state under `Copy` keeps it. -/
theorem store_file_move_copy_frame_witness :
    ((store_file hfA archD fsS srcP .Copy).2 srcP = fsS srcP) ∧
    (isOkE (store_file hfA archD fsS srcP .Move).1 = true ∧
      (store_file hfA archD fsS srcP .Move).2 srcP = none) :=
  ⟨(store_file_move_copy_frame hfA archD fsS srcP .Copy).1 rfl,
    by decide,
    (store_file_move_copy_frame hfA archD fsS srcP .Move).2.1 rfl (by decide)⟩

/-! ## C4 — deduplication: AlreadyExists on second store -/

/-- C4: if an object already exists at the sharded target path computed from
the source's content hash, `store_file` fails with `AlreadyExists` carrying
that hash and changes nothing; consequently storing the same content twice
(first call succeeding) yields the same hash both times, with the second
call failing `AlreadyExists` and the source file still present. -/
theorem store_file_dedup (hashFn : ByteStr → Nm) (a : Archive) (fs : FS)
    (p : Path) (c : ByteStr)
    (hp : fs p = some (.file c))
    (hex : pathExists fs (get_path_of_stored_file a.archive_path (hashFn c)) = false)
    (hcda : (create_dir_all fs
      (get_path_of_stored_file a.archive_path (hashFn c)).dropLast).2 = true) :
    (∀ (fs' : FS), fs' p = some (.file c) →
      pathExists fs' (get_path_of_stored_file a.archive_path (hashFn c)) = true →
      store_file hashFn a fs' p .Copy = (.error (.AlreadyExists (hashFn c)), fs')) ∧
    (store_file hashFn a fs p .Copy).1 = .ok (hashFn c) ∧
    (store_file hashFn a fs p .Copy).2 p = some (.file c) ∧
    (store_file hashFn a (store_file hashFn a fs p .Copy).2 p .Copy).1 =
      .error (.AlreadyExists (hashFn c)) ∧
    (store_file hashFn a (store_file hashFn a fs p .Copy).2 p .Copy).2 =
      (store_file hashFn a fs p .Copy).2 := by
  have hgen : ∀ (fs' : FS), fs' p = some (.file c) →
      pathExists fs' (get_path_of_stored_file a.archive_path (hashFn c)) = true →
      store_file hashFn a fs' p .Copy = (.error (.AlreadyExists (hashFn c)), fs') := by
    intro fs' hp' hex'
    have hre' : resolveEntry fs' SYMLINK_FUEL p = some (.file c) :=
      resolveEntry_nonsymlink hp' rfl (by decide)
    simp [store_file, hp', Entry.isSymlink, hre', hex']
  have hre : resolveEntry fs SYMLINK_FUEL p = some (.file c) :=
    resolveEntry_nonsymlink hp rfl (by decide)
  have hne : p ≠ get_path_of_stored_file a.archive_path (hashFn c) := by
    intro heq
    rw [pathExists, ← heq, hre] at hex
    simp at hex
  have h1 : (store_file hashFn a fs p .Copy).1 = .ok (hashFn c) := by
    simp [store_file, hp, Entry.isSymlink, hre, hex, hcda]
  have h2fs : (store_file hashFn a fs p .Copy).2 =
      (create_dir_all fs
        (get_path_of_stored_file a.archive_path (hashFn c)).dropLast).1.update
        (get_path_of_stored_file a.archive_path (hashFn c)) (.file c) := by
    simp [store_file, hp, Entry.isSymlink, hre, hex, hcda]
  have h3 : (store_file hashFn a fs p .Copy).2 p = some (.file c) := by
    rw [h2fs]
    simp only [FS.update, if_neg hne]
    exact create_dir_all_preserve hp
  have htgt : (store_file hashFn a fs p .Copy).2
      (get_path_of_stored_file a.archive_path (hashFn c)) = some (.file c) := by
    rw [h2fs]
    simp [FS.update]
  have hex1 : pathExists (store_file hashFn a fs p .Copy).2
      (get_path_of_stored_file a.archive_path (hashFn c)) = true := by
    rw [pathExists, resolveEntry_nonsymlink htgt rfl (by decide)]
    rfl
  have hsecond := hgen (store_file hashFn a fs p .Copy).2 h3 hex1
  exact ⟨hgen, h1, h3, by rw [hsecond], by rw [hsecond]⟩

/-- Witness for C4: storing `/s/f.txt` twice into a fresh archive. -/
theorem store_file_dedup_witness :
    fsS srcP = some (.file [7]) ∧
    (store_file hfA archD fsS srcP .Copy).1 = .ok (hfA [7]) ∧
    (store_file hfA archD (store_file hfA archD fsS srcP .Copy).2 srcP .Copy).1 =
      .error (.AlreadyExists (hfA [7])) :=
  ⟨rfl,
    (store_file_dedup hfA archD fsS srcP [7] rfl (by decide) (by decide)).2.1,
    (store_file_dedup hfA archD fsS srcP [7] rfl (by decide) (by decide)).2.2.2.1⟩

theorem commonLen_le_left : ∀ (a b : Path), commonLen a b ≤ a.length := by
  intro a
  induction a with
  | nil => intro b; cases b <;> simp [commonLen]
  | cons x xs ih =>
    intro b
    cases b with
    | nil => simp [commonLen]
    | cons y ys =>
      simp only [commonLen]
      split
      · simpa using ih ys
      · simp

theorem take_commonLen :
    ∀ (a b : Path), a.take (commonLen a b) = b.take (commonLen a b) := by
  intro a
  induction a with
  | nil => intro b; cases b <;> simp [commonLen]
  | cons x xs ih =>
    intro b
    cases b with
    | nil => simp [commonLen]
    | cons y ys =>
      simp only [commonLen]
      split
      · rename_i hxy
        simp [List.take_succ_cons, hxy, ih ys]
      · simp

theorem components_append (xs ys : List Nm) :
    components (xs ++ ys) = components xs ++ components ys := by
  simp [components]

theorem components_replicate_dotdot (k : Nat) :
    components (List.replicate k (nm "..")) = List.replicate k .parentDir := by
  induction k with
  | zero => rfl
  | succ n ih =>
    rw [List.replicate_succ, List.replicate_succ]
    simp only [components, List.filterMap_cons] at ih ⊢
    rw [show componentOf (nm "..") = some .parentDir from rfl]
    rw [ih]

theorem componentOf_clean {s : Nm} (h : cleanNm s = true) :
    componentOf s = some (.normal s) := by
  simp only [cleanNm, Bool.not_eq_true', Bool.or_eq_false_iff,
    decide_eq_false_iff_not] at h
  simp [componentOf, h.1.1, h.1.2, h.2]

theorem components_clean {q : Path} (h : cleanPath q = true) :
    components q = q.map .normal := by
  induction q with
  | nil => rfl
  | cons x xs ih =>
    simp only [cleanPath, List.all_cons, Bool.and_eq_true] at h
    simp only [components, List.filterMap_cons, componentOf_clean h.1, List.map_cons]
    have := ih (by simp [cleanPath, h.2])
    simp only [components] at this
    rw [this]

theorem logi_replicate_parentDir :
    ∀ (k : Nat) (b : Path) (cs : List RComponent), k ≤ b.length →
      logi b (List.replicate k .parentDir ++ cs) =
        logi (b.take (b.length - k)) cs := by
  intro k
  induction k with
  | zero => intro b cs _; simp
  | succ n ih =>
    intro b cs hk
    rw [List.replicate_succ, List.cons_append]
    have hb : b ≠ [] := by
      intro h
      subst h
      simp at hk
    simp only [logi, if_neg hb]
    rw [ih b.dropLast cs (by simp [List.length_dropLast]; omega)]
    have heq : b.dropLast.take (b.dropLast.length - n) =
        b.take (b.length - (n + 1)) := by
      rw [List.length_dropLast, List.dropLast_eq_take, List.take_take]
      congr 1
      omega
    rw [heq]

theorem logi_normals : ∀ (cs : List Nm) (b : Path),
    logi b (cs.map .normal) = some (b ++ cs) := by
  intro cs
  induction cs with
  | nil => intro b; simp [logi]
  | cons x xs ih =>
    intro b
    simp only [List.map_cons, logi]
    rw [ih (b ++ [x])]
    simp

theorem cleanPath_drop {p : Path} (h : cleanPath p = true) (n : Nat) :
    cleanPath (p.drop n) = true := by
  simp only [cleanPath, List.all_eq_true] at h ⊢
  exact fun x hx => h x (List.mem_of_mem_drop hx)

theorem relative_to_logi {p base : Path} {r : List Nm}
    (h : relative_to p base = some r) : logi base (components r) = some p := by
  by_cases hc : cleanPath p = true ∧ cleanPath base = true
  · rw [relative_to, if_pos (by exact ⟨hc.1, hc.2⟩)] at h
    have hr := Option.some.inj h
    subst hr
    rw [components_append, components_replicate_dotdot,
      components_clean (cleanPath_drop hc.1 _),
      logi_replicate_parentDir _ _ _ (by omega),
      logi_normals]
    have hcl : commonLen base p ≤ base.length := commonLen_le_left base p
    have hsub : base.length - (base.length - commonLen base p) =
        commonLen base p := by omega
    rw [hsub, take_commonLen base p, List.take_append_drop]
  · rw [relative_to, if_neg (by simpa using hc)] at h
    exact absurd h (by simp)

/-! ## C8 — symlink deployment uses a relative target -/

/-- C8: a successful `Symlink` deployment stores, as the link's target, the
relative path from the deploy target's parent directory to the stored
object (never an absolute path — the stored segments are interpreted
relative to the link's parent), and resolving that stored target logically
against the parent yields exactly the stored object path; when relative-path
construction fails, the dedicated `SymlinkRelativePathConstruction` error is
returned instead of a filesystem error. -/
theorem deploy_file_symlink_relative :
    (∀ (a : Archive) (dp full : Path) (fs : FS) (h : Nm) (t : List Nm)
      (c : ByteStr) (r : List Nm),
      a.deploy_path = some dp → logi dp (components t) = some full →
      dp <+: full → full ≠ dp → fs full = none →
      fs (get_path_of_stored_file a.archive_path h) = some (.file c) →
      (create_dir_all fs full.dropLast).2 = true →
      relative_to (get_path_of_stored_file a.archive_path h) full.dropLast = some r →
      (deploy_file true a fs h t .Symlink).1 = .ok () ∧
      (deploy_file true a fs h t .Symlink).2 full = some (.symlink r) ∧
      logi full.dropLast (components r) =
        some (get_path_of_stored_file a.archive_path h)) ∧
    (∀ (a : Archive) (dp full : Path) (fs : FS) (h : Nm) (t : List Nm)
      (c : ByteStr),
      a.deploy_path = some dp → logi dp (components t) = some full →
      dp <+: full → full ≠ dp → fs full = none →
      fs (get_path_of_stored_file a.archive_path h) = some (.file c) →
      (create_dir_all fs full.dropLast).2 = true →
      relative_to (get_path_of_stored_file a.archive_path h) full.dropLast = none →
      (deploy_file true a fs h t .Symlink).1 =
        .error (.SymlinkRelativePathConstruction
          (get_path_of_stored_file a.archive_path h) full.dropLast)) := by
  constructor
  · intro a dp full fs h t c r hdp hL hpre hne hfull hsp hcda hrel
    have hval : ¬ (¬ dp <+: full ∨ full = dp) := by simp [hpre, hne]
    have hres : deploy_file true a fs h t .Symlink =
        (.ok (), (create_dir_all fs full.dropLast).1.update full (.symlink r)) := by
      simp [deploy_file, hdp, hL, hval, hfull, hsp, Entry.isFile, hcda, hrel]
    refine ⟨by rw [hres], by rw [hres]; simp [FS.update], relative_to_logi hrel⟩
  · intro a dp full fs h t c hdp hL hpre hne hfull hsp hcda hrel
    have hval : ¬ (¬ dp <+: full ∨ full = dp) := by simp [hpre, hne]
    simp [deploy_file, hdp, hL, hval, hfull, hsp, Entry.isFile, hcda, hrel]

/-- Witness for C8: a concrete symlink deployment to `/d/x/y` stores the
relative target `rA` and resolving it against `/d/x` gives the stored
object; a concrete archive whose root contains a `".."` component makes the
construction fail with the dedicated error. -/
theorem deploy_file_symlink_relative_witness :
    ((deploy_file true archD fsA hashA [nm "x", nm "y"] .Symlink).1 = .ok () ∧
      (deploy_file true archD fsA hashA [nm "x", nm "y"] .Symlink).2
        [nm "d", nm "x", nm "y"] = some (.symlink rA) ∧
      logi [nm "d", nm "x"] (components rA) = some spA) ∧
    (deploy_file true archU fsU hashA [nm "x", nm "y"] .Symlink).1 =
      .error (.SymlinkRelativePathConstruction spU [nm "..", nm "x"]) :=
  ⟨deploy_file_symlink_relative.1 archD [nm "d"] [nm "d", nm "x", nm "y"] fsA
      hashA [nm "x", nm "y"] [7] rA rfl (by decide) (by decide) (by decide)
      (by decide) (by decide) (by decide) (by decide),
    deploy_file_symlink_relative.2 archU [nm ".."] [nm "..", nm "x", nm "y"] fsU
      hashA [nm "x", nm "y"] [7] rfl (by decide) (by decide) (by decide)
      (by decide) (by decide) (by decide) (by decide)⟩

/-! ## C10 — deploy_file frame behaviour -/

/-- C10: `deploy_file` modifies no filesystem state when it fails before
parent-directory creation (bare archive, invalid path, target already
exists, source metadata error including the missing-source case, source not
a regular file); but directories created during the materialization stage
are not rolled back — a concrete symlink deploy on a platform without
symlink support fails `NotSupported` yet leaves the newly created
directories `/d` and `/d/x` under the deploy root. -/
theorem deploy_file_early_failure_frame :
    (∀ (supp : Bool) (a : Archive) (fs : FS) (h : Nm) (t : List Nm)
      (m : DeployMethod),
      earlyDeployFailure (deploy_file supp a fs h t m).1 = true →
      (deploy_file supp a fs h t m).2 = fs) ∧
    ((deploy_file false archD fsA hashA [nm "x", nm "y"] .Symlink).1 =
        .error .NotSupported ∧
      fsA [nm "d"] = none ∧ fsA [nm "d", nm "x"] = none ∧
      (deploy_file false archD fsA hashA [nm "x", nm "y"] .Symlink).2
        [nm "d"] = some .dir ∧
      (deploy_file false archD fsA hashA [nm "x", nm "y"] .Symlink).2
        [nm "d", nm "x"] = some .dir) := by
  constructor
  · intro supp a fs h t m hearly
    cases hdp : a.deploy_path with
    | none => simp [deploy_file, hdp]
    | some dp =>
      cases hL : logi dp (components t) with
      | none => simp [deploy_file, hdp, hL]
      | some full =>
        by_cases hval : ¬ dp <+: full ∨ full = dp
        · simp [deploy_file, hdp, hL, hval]
        · cases hfull : fs full with
          | some e0 => simp [deploy_file, hdp, hL, hval, hfull]
          | none =>
            cases hsp : fs (get_path_of_stored_file a.archive_path h) with
            | none => simp [deploy_file, hdp, hL, hval, hfull, hsp]
            | some e =>
              cases e with
              | dir =>
                simp [deploy_file, hdp, hL, hval, hfull, hsp, Entry.isFile]
              | symlink tg =>
                simp [deploy_file, hdp, hL, hval, hfull, hsp, Entry.isFile]
              | file c =>
                exfalso
                cases hcda : (create_dir_all fs full.dropLast).2 with
                | false =>
                  simp [deploy_file, hdp, hL, hval, hfull, hsp, Entry.isFile,
                    hcda, earlyDeployFailure, earlyDeployError] at hearly
                | true =>
                  cases m with
                  | Copy =>
                    simp [deploy_file, hdp, hL, hval, hfull, hsp, Entry.isFile,
                      hcda, earlyDeployFailure] at hearly
                  | Hardlink =>
                    simp [deploy_file, hdp, hL, hval, hfull, hsp, Entry.isFile,
                      hcda, earlyDeployFailure] at hearly
                  | Symlink =>
                    cases hrel : relative_to
                        (get_path_of_stored_file a.archive_path h)
                        full.dropLast with
                    | none =>
                      simp [deploy_file, hdp, hL, hval, hfull, hsp, Entry.isFile,
                        hcda, hrel, earlyDeployFailure, earlyDeployError] at hearly
                    | some r =>
                      cases supp <;>
                        simp [deploy_file, hdp, hL, hval, hfull, hsp, Entry.isFile,
                          hcda, hrel, earlyDeployFailure, earlyDeployError] at hearly
  · refine ⟨by decide, rfl, rfl, by decide, by decide⟩

/-- Witness for C10: a deploy into a bare archive fails early and returns
the filesystem unchanged. -/
theorem deploy_file_early_failure_frame_witness :
    earlyDeployFailure (deploy_file true archB fsA hashA [nm "x"] .Copy).1 = true ∧
    (deploy_file true archB fsA hashA [nm "x"] .Copy).2 = fsA :=
  ⟨by decide,
    deploy_file_early_failure_frame.1 true archB fsA hashA [nm "x"] .Copy (by decide)⟩

end MediaArchive
